import Mathlib

/-!
Verification of the MCU-bridge core of the `blackmagic-speededitor` repository
(`speed-editor-to-mackie.py`).  The handler class `MackieHandler` is embedded
shallowly: every method becomes a pure function from an explicit state record
to a new state together with the list of outbound effects (device register
writes, MIDI messages, timer arms) it produced, in emission order.
-/

/-- Modelled from the spec: the key enumeration of the device-driver module
`bmd` (imported by the bridge but not part of the translated core).  The spec
describes keys as opaque enumerated identifiers; we list the identifiers the
bridge mentions plus a few camera keys as representatives of the rest. -/
inductive SpeedEditorKey where
  | STOP_PLAY
  | FULL_VIEW
  | IN
  | OUT
  | TRIM_IN
  | TRIM_OUT
  | SHTL
  | JOG
  | SCRL
  | CAM1
  | CAM2
  | CAM3
  | CAM4
  deriving DecidableEq, Repr

/-- Modelled from the spec: the jog-LED identifiers of the `bmd` module
(one indicator per jog-mode key). -/
inductive SpeedEditorJogLed where
  | SHTL
  | JOG
  | SCRL
  deriving DecidableEq, Repr

/-- Modelled from the spec: the jog interpretation modes of the `bmd` module
(relative-continuous vs. absolute-deadzone). -/
inductive SpeedEditorJogMode where
  | RELATIVE_2
  | ABSOLUTE_DEADZERO
  deriving DecidableEq, Repr

/-- Modelled from the spec: the LED bit of the `bmd` module's `SpeedEditorLed`
table for a key (`getattr(SpeedEditorLed, k.name, 0)`): each settable LED is
zero or one bit; keys without an associated LED yield 0 and toggling is a
no-op for them. -/
def ledBit : SpeedEditorKey → Nat
  | SpeedEditorKey.CAM1 => 1
  | SpeedEditorKey.CAM2 => 2
  | SpeedEditorKey.CAM3 => 4
  | SpeedEditorKey.CAM4 => 8
  | _ => 0

/-- Every key (used to iterate over a finite set of keys the way the Python
code iterates over a `set`). -/
def allKeys : List SpeedEditorKey :=
  [SpeedEditorKey.STOP_PLAY, SpeedEditorKey.FULL_VIEW, SpeedEditorKey.IN,
   SpeedEditorKey.OUT, SpeedEditorKey.TRIM_IN, SpeedEditorKey.TRIM_OUT,
   SpeedEditorKey.SHTL, SpeedEditorKey.JOG, SpeedEditorKey.SCRL,
   SpeedEditorKey.CAM1, SpeedEditorKey.CAM2, SpeedEditorKey.CAM3,
   SpeedEditorKey.CAM4]

/-- Outbound effects of the handler, in emission order: device register
writes (`set_leds`, `set_jog_leds`, `set_jog_mode`), MIDI messages
(`note_on` with velocity 127, `control_change` on the jog CC), and the arming
of the zoom repeat timer (`threading.Timer(...).start()`). -/
inductive Output where
  | setLeds (mask : Nat)
  | setJogLeds (led : SpeedEditorJogLed)
  | setJogMode (mode : SpeedEditorJogMode)
  | midiNote (note : Nat)
  | midiJogCC (val : Nat)
  | armTimer
  deriving DecidableEq, Repr

namespace MackieHandler

/-- `MackieHandler.JOG`: jog-mode table mapping each jog-mode key to its
jog LED and device jog mode (lines 23-27). -/
def JOG : SpeedEditorKey → Option (SpeedEditorJogLed × SpeedEditorJogMode)
  | SpeedEditorKey.SHTL => some (SpeedEditorJogLed.SHTL, SpeedEditorJogMode.RELATIVE_2)
  | SpeedEditorKey.JOG => some (SpeedEditorJogLed.JOG, SpeedEditorJogMode.RELATIVE_2)
  | SpeedEditorKey.SCRL => some (SpeedEditorJogLed.SCRL, SpeedEditorJogMode.RELATIVE_2)
  | _ => none

/-- `MackieHandler.JOG_SPEED_FACTOR` (lines 29-33): the per-mode speed factor
dictionary; lookup of an untracked key raises `KeyError` in Python, embedded
as `none`. -/
def JOG_SPEED_FACTOR : SpeedEditorKey → Option Int
  | SpeedEditorKey.SHTL => some 20
  | SpeedEditorKey.JOG => some 15
  | SpeedEditorKey.SCRL => some 1
  | _ => none

def MCU_JOG_CC : Nat := 0x3c
def MCU_STOP : Nat := 0x5D
def MCU_PLAY : Nat := 0x5E
def MCU_REC : Nat := 0x5F
def MCU_UP : Nat := 0x60
def MCU_DOWN : Nat := 0x61
def MCU_LEFT : Nat := 0x62
def MCU_RIGHT : Nat := 0x63
def MCU_ZOOM : Nat := 0x64
def MCU_SCRUB : Nat := 0x65

/-- `MackieHandler.ZOOM_KEYS` (line 48). -/
def ZOOM_KEYS : List SpeedEditorKey :=
  [SpeedEditorKey.IN, SpeedEditorKey.OUT, SpeedEditorKey.TRIM_IN, SpeedEditorKey.TRIM_OUT]

/-- The mutable attributes of a `MackieHandler` instance (the `se`, midi port
and thread handles are external collaborators and carry no translated state). -/
structure State where
  zoom_timer_on : Bool
  keys : Finset SpeedEditorKey
  leds : Nat
  play_state : Bool
  zoom_mode : Bool
  scrub_mode : Bool
  jog_unsent : Int
  jog_mode : SpeedEditorKey
  deriving DecidableEq

/-- `_set_jog_mode_for_key` (lines 86-93): untracked keys return with no
effect; a jog-mode key becomes the active mode, the jog LED and device jog
mode are reprogrammed, and a SCRUB toggle note is sent when
`(key == SHTL) == (not scrub_mode)`. -/
def set_jog_mode_for_key (s : State) (key : SpeedEditorKey) : State × List Output :=
  match JOG key with
  | none => (s, [])
  | some (led, mode) =>
    let s1 := { s with jog_mode := key }
    let out := [Output.setJogLeds led, Output.setJogMode mode]
    if (decide (key = SpeedEditorKey.SHTL)) = (! s1.scrub_mode) then
      (s1, out ++ [Output.midiNote MCU_SCRUB])
    else
      (s1, out)

/-- Fuel-indexed form of the `send_midi_jog_cc` loop (lines 149-156): peel
off `min remaining 63` per message until the remaining absolute value is
exhausted.  Each iteration removes at least 1, so fuel `n` suffices for
remaining value `n`; the fuel only makes the recursion structural. -/
def jogSplitMagsFuel : Nat → Nat → List Nat
  | _, 0 => []
  | 0, _ + 1 => []
  | n + 1, fuel + 1 => min (n + 1) 63 :: jogSplitMagsFuel (n + 1 - min (n + 1) 63) fuel

/-- The loop of `send_midi_jog_cc` (lines 149-156) produces this list of
per-message magnitudes from the remaining absolute value. -/
def jogSplitMags (n : Nat) : List Nat :=
  jogSplitMagsFuel n n

/-- `send_midi_jog_cc` (lines 147-156): split `|shift|` into magnitudes of at
most 63 and OR the sign bit (`int(shift < 0) << 6`) into each emitted
control-change value byte. -/
def send_midi_jog_cc (shift : Int) : List Output :=
  (jogSplitMags shift.natAbs).map
    (fun a => Output.midiJogCC (a ||| (if shift < 0 then 64 else 0)))

/-- `jog` (lines 95-106): floor-divide the raw delta by 360, add to the
accumulator, floor-divide the accumulator by the active mode's speed factor
(`none` embeds the Python `KeyError` on an untracked mode), and either return
with the accumulator keeping the sub-step rotation (quotient 0) or subtract
the emitted whole steps and send them.  The `mode` argument is ignored, as in
the source. -/
def jog (s : State) (mode : SpeedEditorJogMode) (value : Int) : Option (State × List Output) :=
  let v := Int.fdiv value 360
  let s1 := { s with jog_unsent := s.jog_unsent + v }
  match JOG_SPEED_FACTOR s1.jog_mode with
  | none => none
  | some speed_factor =>
    let value_to_send := Int.fdiv s1.jog_unsent speed_factor
    if value_to_send = 0 then some (s1, [])
    else
      some ({ s1 with jog_unsent := s1.jog_unsent - value_to_send * speed_factor },
            send_midi_jog_cc value_to_send)

/-- `key_released` (lines 124-125): a no-op (`pass`). -/
def key_released (s : State) (_k : SpeedEditorKey) : State × List Output :=
  (s, [])

/-- `set_zoom_mode` (lines 158-160): send a ZOOM toggle note only when the
mirrored zoom-mode flag is not already active. -/
def set_zoom_mode (s : State) : List Output :=
  if s.zoom_mode then [] else [Output.midiNote MCU_ZOOM]

/-- `set_zoom_timer` (lines 166-170): arm a one-shot repeat timer only when
none is outstanding, guarded by the `zoom_timer_on` flag. -/
def set_zoom_timer (s : State) : State × List Output :=
  if s.zoom_timer_on then (s, [])
  else ({ s with zoom_timer_on := true }, [Output.armTimer])

/-- `zoom_handle_keys` (lines 172-186): if any zoom key is held, possibly
enable zoom mode; emit one directional note per held zoom key; finally re-arm
the repeat timer when a zoom key was held. -/
def zoom_handle_keys (s : State) : State × List Output :=
  let zoom_pressed := ZOOM_KEYS.any (fun k => decide (k ∈ s.keys))
  let out1 := if zoom_pressed then set_zoom_mode s else []
  let out2 := if SpeedEditorKey.IN ∈ s.keys then [Output.midiNote MCU_RIGHT] else []
  let out3 := if SpeedEditorKey.OUT ∈ s.keys then [Output.midiNote MCU_LEFT] else []
  let out4 := if SpeedEditorKey.TRIM_IN ∈ s.keys then [Output.midiNote MCU_DOWN] else []
  let out5 := if SpeedEditorKey.TRIM_OUT ∈ s.keys then [Output.midiNote MCU_UP] else []
  let t := if zoom_pressed then set_zoom_timer s else (s, [])
  (t.1, out1 ++ out2 ++ out3 ++ out4 ++ out5 ++ t.2)

/-- `zoom_repeat` (lines 162-164): the timer callback clears the
`zoom_timer_on` flag and re-runs `zoom_handle_keys`. -/
def zoom_repeat (s : State) : State × List Output :=
  zoom_handle_keys { s with zoom_timer_on := false }

/-- `key_pressed` (lines 127-142): select jog mode for the key, toggle its
LED bit and push the mask, then the protocol actions: STOP_PLAY sends STOP or
PLAY against the mirrored play state, FULL_VIEW sends RECORD, and zoom keys
run the zoom scheduler. -/
def key_pressed (s : State) (k : SpeedEditorKey) : State × List Output :=
  let a := set_jog_mode_for_key s k
  let s2 := { a.1 with leds := a.1.leds ^^^ ledBit k }
  let out2 := [Output.setLeds s2.leds]
  let out3 :=
    if k = SpeedEditorKey.STOP_PLAY then
      [Output.midiNote (if s2.play_state then MCU_STOP else MCU_PLAY)]
    else []
  let out4 := if k = SpeedEditorKey.FULL_VIEW then [Output.midiNote MCU_REC] else []
  let b := if k ∈ ZOOM_KEYS then zoom_handle_keys s2 else (s2, [])
  (b.1, a.2 ++ out2 ++ out3 ++ out4 ++ b.2)

/-- Lines 115-116 of `key`: the released/released edge sets computed from the
stored previous held-set and the new snapshot. -/
def keyEdges (prev : Finset SpeedEditorKey) (keysList : List SpeedEditorKey) :
    Finset SpeedEditorKey × Finset SpeedEditorKey :=
  (prev \ keysList.toFinset, keysList.toFinset \ prev)

/-- Run a per-key handler over a list of keys, threading the state and
concatenating the outputs (the `for k in released/pressed` loops). -/
def runHandler (f : State → SpeedEditorKey → State × List Output)
    (s : State) (ks : List SpeedEditorKey) : State × List Output :=
  ks.foldl (fun acc k => let p := f acc.1 k; (p.1, acc.2 ++ p.2)) (s, [])

/-- Iteration over a key set, in the fixed enumeration order of `allKeys`
(the Python `set` iteration order is unspecified). -/
def setToList (s : Finset SpeedEditorKey) : List SpeedEditorKey :=
  allKeys.filter (fun k => decide (k ∈ s))

/-- `key` (lines 108-122), the snapshot entry point: build the new held-set,
compute released and pressed edges, adopt the snapshot as the stored
held-set, then run `key_released` over released keys and `key_pressed` over
pressed keys. -/
def key (s : State) (keysList : List SpeedEditorKey) : State × List Output :=
  let keys_set := keysList.toFinset
  let e := keyEdges s.keys keysList
  let s1 := { s with keys := keys_set }
  let r := runHandler key_released s1 (setToList e.1)
  let p := runHandler key_pressed r.1 (setToList e.2)
  (p.1, r.2 ++ p.2)

/-- One recognized inbound MIDI message (`receive_thread` consumes a stream
of these); `other` stands for every unrecognized message. -/
inductive MidiInMsg where
  | noteOn (note : Nat) (velocity : Nat)
  | other
  deriving DecidableEq, Repr

/-- One iteration of `receive_thread` (lines 74-84): a `note_on` for the
PLAY / ZOOM / SCRUB identifiers overwrites the corresponding mirrored flag
with `velocity > 0`; everything else is ignored. -/
def receiveMsg (s : State) (msg : MidiInMsg) : State :=
  match msg with
  | MidiInMsg.other => s
  | MidiInMsg.noteOn note velocity =>
    let s1 := if note = MCU_PLAY then { s with play_state := decide (0 < velocity) } else s
    let s2 := if note = MCU_ZOOM then { s1 with zoom_mode := decide (0 < velocity) } else s1
    if note = MCU_SCRUB then { s2 with scrub_mode := decide (0 < velocity) } else s2

/-- The state-relevant part of `__init__` (lines 50-66): clear the timer
flag, empty held-set, zero and push the LED mask, clear the three mirrored
flags, zero the jog accumulator, then select the jog mode for
`SpeedEditorKey.JOG`.  The pre-initialization `jog_mode` field value is
irrelevant (Python creates the attribute inside `set_jog_mode_for_key`); we
seed it with `SCRL` and let the call overwrite it. -/
def initState : State × List Output :=
  let s0 : State :=
    { zoom_timer_on := false
      keys := ∅
      leds := 0
      play_state := false
      zoom_mode := false
      scrub_mode := false
      jog_unsent := 0
      jog_mode := SpeedEditorKey.SCRL }
  let p := set_jog_mode_for_key s0 SpeedEditorKey.JOG
  (p.1, Output.setLeds 0 :: p.2)

/-- Magnitude field (low 6 bits) of a jog control-change message; 0 for
every other output. -/
def ccMag (o : Output) : Nat :=
  match o with
  | Output.midiJogCC v => v &&& 63
  | _ => 0

/-- Sign field (bit 6) of a jog control-change message; 0 for every other
output. -/
def ccSign (o : Output) : Nat :=
  match o with
  | Output.midiJogCC v => v &&& 64
  | _ => 0

/-- Signed step value decoded from a jog control-change message: the low 6
bits, negated when bit 6 is set; 0 for every other output. -/
def ccSignedVal (o : Output) : Int :=
  match o with
  | Output.midiJogCC v =>
    if v &&& 64 = 0 then ((v &&& 63 : Nat) : Int) else -((v &&& 63 : Nat) : Int)
  | _ => 0

/-- Sum of the signed step values carried by the jog control-change messages
of an output trace. -/
def jogOutSum (outs : List Output) : Int :=
  (outs.map ccSignedVal).sum

/-- Run a sequence of `jog` ingest calls, threading the state and
concatenating the outputs; `none` as soon as one call raises. -/
def runJog (s : State) : List Int → Option (State × List Output)
  | [] => some (s, [])
  | d :: ds =>
    match jog s SpeedEditorJogMode.RELATIVE_2 d with
    | none => none
    | some (s2, o) =>
      match runJog s2 ds with
      | none => none
      | some (s3, o2) => some (s3, o ++ o2)

/-- Run a sequence of held-key snapshots through the `key` entry point. -/
def runKey (s : State) : List (List SpeedEditorKey) → State
  | [] => s
  | l :: ls => runKey (key s l).1 ls

/-- Number of timer arms in an output trace. -/
def countArm (outs : List Output) : Nat :=
  outs.count Output.armTimer

/-- The STOP / PLAY transport notes of an output trace, in order. -/
def transportNotes (outs : List Output) : List Output :=
  outs.filter (fun o => (o == Output.midiNote MCU_STOP) || (o == Output.midiNote MCU_PLAY))

/-- Arming discipline of a call: the number of timers it arms plus the
timers outstanding according to the entry flag equals the timers outstanding
according to the exit flag (so a call arms at most one timer, and only when
none was outstanding). -/
def ArmSpec (s : State) (p : State × List Output) : Prop :=
  countArm p.2 + (if s.zoom_timer_on then 1 else 0) =
    (if p.1.zoom_timer_on then 1 else 0)

/-- Bridge state plus the number of outstanding (scheduled, not yet fired)
zoom repeat timers, for the temporal zoom-scheduler model. -/
structure ZoomSys where
  st : State
  pending : Nat
  deriving DecidableEq

/-- Events of the zoom-scheduler model: a held-key snapshot delivered to the
`key` entry point, or the expiry of an outstanding repeat timer. -/
inductive ZoomEvent where
  | snapshot (keysList : List SpeedEditorKey)
  | fire
  deriving DecidableEq, Repr

/-- Step relation of the zoom-scheduler model: a snapshot runs `key` and
adds the timers it armed to the outstanding count; a timer expiry is enabled
only when a timer is outstanding, consumes it, and runs `zoom_repeat`. -/
def zoomStep (sys : ZoomSys) : ZoomEvent → Option ZoomSys
  | ZoomEvent.snapshot keysList =>
    let p := key sys.st keysList
    some ⟨p.1, sys.pending + countArm p.2⟩
  | ZoomEvent.fire =>
    if sys.pending = 0 then none
    else
      let p := zoom_repeat sys.st
      some ⟨p.1, sys.pending - 1 + countArm p.2⟩

/-- Run a sequence of zoom-scheduler events. -/
def zoomRun (sys : ZoomSys) : List ZoomEvent → Option ZoomSys
  | [] => some sys
  | e :: es =>
    match zoomStep sys e with
    | none => none
    | some sys2 => zoomRun sys2 es

/-- Invariant of the zoom-scheduler model: the outstanding-timer count is
exactly what the `zoom_timer_on` flag claims (1 when set, else 0). -/
def ZoomInv (sys : ZoomSys) : Prop :=
  sys.pending = (if sys.st.zoom_timer_on then 1 else 0)

/-- A baseline handler state (empty held-set, dark LEDs, cleared flags, JOG
mode) used for concrete instances. -/
def exState : State :=
  { zoom_timer_on := false
    keys := ∅
    leds := 0
    play_state := false
    zoom_mode := false
    scrub_mode := false
    jog_unsent := 0
    jog_mode := SpeedEditorKey.JOG }

/-- `exState` with the SHTL key currently held. -/
def c3State : State :=
  { exState with keys := {SpeedEditorKey.SHTL} }

/-- `exState` with a nonzero pending accumulator and active scrub mode. -/
def c7State : State :=
  { exState with jog_unsent := 7, scrub_mode := true }

/-- The per-call demand of the release-driven-handling claim: every released
key sees the LED mask committed (a `setLeds` push of the resulting mask among
the call's outputs), and a released jog-mode key becomes the active jog
mode. -/
def claimC3releaseActs (s : State) (keysList : List SpeedEditorKey) : Prop :=
  ∀ k ∈ (keyEdges s.keys keysList).1,
    Output.setLeds ((key s keysList).1.leds) ∈ (key s keysList).2 ∧
    ((JOG k).isSome → (key s keysList).1.jog_mode = k)

/-! ### Lemmas and claim theorems -/

lemma jogSplitMagsFuel_irrel :
    ∀ f1 f2 n : Nat, n ≤ f1 → n ≤ f2 →
      jogSplitMagsFuel n f1 = jogSplitMagsFuel n f2 := by
  intro f1
  induction f1 with
  | zero =>
    intro f2 n h1 _
    have hn : n = 0 := by omega
    subst hn
    cases f2 <;> rfl
  | succ f1 ih =>
    intro f2 n h1 h2
    cases n with
    | zero => cases f2 <;> rfl
    | succ m =>
      cases f2 with
      | zero => omega
      | succ f2 =>
        show min (m + 1) 63 :: jogSplitMagsFuel (m + 1 - min (m + 1) 63) f1 =
             min (m + 1) 63 :: jogSplitMagsFuel (m + 1 - min (m + 1) 63) f2
        have hlt : m + 1 - min (m + 1) 63 < m + 1 := by omega
        rw [ih f2 (m + 1 - min (m + 1) 63) (by omega) (by omega)]

lemma jogSplitMags_eq (n : Nat) :
    jogSplitMags n = if n = 0 then [] else min n 63 :: jogSplitMags (n - min n 63) := by
  unfold jogSplitMags
  cases n with
  | zero => rfl
  | succ m =>
    show min (m + 1) 63 :: jogSplitMagsFuel (m + 1 - min (m + 1) 63) m =
         if m + 1 = 0 then [] else min (m + 1) 63 :: jogSplitMagsFuel (m + 1 - min (m + 1) 63) (m + 1 - min (m + 1) 63)
    rw [if_neg (by omega),
        jogSplitMagsFuel_irrel m (m + 1 - min (m + 1) 63) (m + 1 - min (m + 1) 63) (by omega) (by omega)]

lemma jogSplitMags_sum (n : Nat) : (jogSplitMags n).sum = n := by
  induction n using Nat.strong_induction_on with
  | _ n ih =>
    rw [jogSplitMags_eq]
    split
    · simpa using by omega
    · rename_i h
      rw [List.sum_cons, ih (n - min n 63) (by omega)]
      omega

lemma jogSplitMags_mem {n a : Nat} (ha : a ∈ jogSplitMags n) : 1 ≤ a ∧ a ≤ 63 := by
  induction n using Nat.strong_induction_on with
  | _ n ih =>
    rw [jogSplitMags_eq] at ha
    split at ha
    · simp at ha
    · rename_i h
      rcases List.mem_cons.mp ha with h1 | h1
      · subst h1
        constructor <;> omega
      · exact ih (n - min n 63) (by omega) h1

lemma jogSplitMags_ne_nil {n : Nat} (hn : n ≠ 0) : jogSplitMags n ≠ [] := by
  rw [jogSplitMags_eq]
  split
  · omega
  · simp

lemma bits63 {a : Nat} (ha : a ≤ 63) :
    (a ||| 64) &&& 63 = a ∧ (a ||| 64) &&& 64 = 64 ∧
    a &&& 64 = 0 ∧ a &&& 63 = a ∧ a ||| 0 = a := by
  have h : ∀ b : Fin 64,
      ((b.val ||| 64) &&& 63 = b.val) ∧ ((b.val ||| 64) &&& 64 = 64) ∧
      (b.val &&& 64 = 0) ∧ (b.val &&& 63 = b.val) ∧ (b.val ||| 0 = b.val) := by decide
  exact h ⟨a, by omega⟩

lemma send_midi_jog_cc_mags (q : Int) :
    (send_midi_jog_cc q).map ccMag = jogSplitMags q.natAbs := by
  unfold send_midi_jog_cc
  rw [List.map_map]
  have h : ∀ a ∈ jogSplitMags q.natAbs,
      (ccMag ∘ fun a => Output.midiJogCC (a ||| (if q < 0 then 64 else 0))) a = id a := by
    intro a ha
    have hb := (jogSplitMags_mem ha).2
    by_cases hq : q < 0 <;>
      simp [ccMag, hq, (bits63 hb).1, (bits63 hb).2.2.2.1, (bits63 hb).2.2.2.2]
  rw [List.map_congr_left h, List.map_id]

lemma list_sum_int_cast (l : List Nat) :
    (l.map (fun a => ((a : Nat) : Int))).sum = (l.sum : Int) := by
  induction l with
  | nil => rfl
  | cons a l ih =>
    rw [List.map_cons, List.sum_cons, ih, List.sum_cons]
    push_cast
    ring

lemma list_sum_int_neg (l : List Nat) :
    (l.map (fun a => -((a : Nat) : Int))).sum = -(l.sum : Int) := by
  induction l with
  | nil => rfl
  | cons a l ih =>
    rw [List.map_cons, List.sum_cons, ih, List.sum_cons]
    push_cast
    ring

lemma jogOutSum_send (q : Int) : jogOutSum (send_midi_jog_cc q) = q := by
  unfold jogOutSum send_midi_jog_cc
  rw [List.map_map]
  by_cases hq : q < 0
  · have h : ∀ a ∈ jogSplitMags q.natAbs,
        (ccSignedVal ∘ fun a => Output.midiJogCC (a ||| (if q < 0 then 64 else 0))) a =
          (fun a => -((a : Nat) : Int)) a := by
      intro a ha
      have hb := (jogSplitMags_mem ha).2
      simp [ccSignedVal, hq, (bits63 hb).1, (bits63 hb).2.1]
    rw [List.map_congr_left h, list_sum_int_neg, jogSplitMags_sum]
    omega
  · have h : ∀ a ∈ jogSplitMags q.natAbs,
        (ccSignedVal ∘ fun a => Output.midiJogCC (a ||| (if q < 0 then 64 else 0))) a =
          (fun a => ((a : Nat) : Int)) a := by
      intro a ha
      have hb := (jogSplitMags_mem ha).2
      simp [ccSignedVal, hq, (bits63 hb).2.2.1, (bits63 hb).2.2.2.1, (bits63 hb).2.2.2.2]
    rw [List.map_congr_left h, list_sum_int_cast, jogSplitMags_sum]
    omega

/-- C6 — outbound jog step encoding: for every nonzero quotient `q` the
emitted control-change list is nonempty, each message is a jog CC whose low
6 bits carry a magnitude between 1 and 63 with the sign bit (bit 6) set
exactly when `q < 0`, the magnitudes sum to `|q|`, and a quotient of
magnitude 130 yields exactly the magnitudes 63, 63, 4. -/
theorem C6_jog_cc_encoding (q : Int) (hq : q ≠ 0) :
    send_midi_jog_cc q ≠ [] ∧
    (∀ o ∈ send_midi_jog_cc q, ∃ a : Nat, 1 ≤ a ∧ a ≤ 63 ∧
        o = Output.midiJogCC (a ||| (if q < 0 then 64 else 0)) ∧
        ccMag o = a ∧ (ccSign o ≠ 0 ↔ q < 0)) ∧
    ((send_midi_jog_cc q).map ccMag).sum = q.natAbs ∧
    (send_midi_jog_cc 130).map ccMag = [63, 63, 4] ∧
    (send_midi_jog_cc (-130)).map ccMag = [63, 63, 4] := by
  refine ⟨?_, ?_, ?_, by decide, by decide⟩
  · unfold send_midi_jog_cc
    have h0 : q.natAbs ≠ 0 := by omega
    have h1 := jogSplitMags_ne_nil h0
    simpa using h1
  · intro o ho
    unfold send_midi_jog_cc at ho
    rcases List.mem_map.mp ho with ⟨a, ha, rfl⟩
    have hb := jogSplitMags_mem ha
    refine ⟨a, hb.1, hb.2, rfl, ?_, ?_⟩
    · by_cases hneg : q < 0 <;>
        simp [ccMag, hneg, (bits63 hb.2).1, (bits63 hb.2).2.2.2.1, (bits63 hb.2).2.2.2.2]
    · by_cases hneg : q < 0 <;>
        simp [ccSign, hneg, (bits63 hb.2).2.1, (bits63 hb.2).2.2.1, (bits63 hb.2).2.2.2.2]
  · rw [send_midi_jog_cc_mags, jogSplitMags_sum]

/-- Witness for C6 at the concrete quotient 130. -/
theorem C6_jog_cc_encoding_witness :
    (send_midi_jog_cc (130 : Int)).map ccMag = [63, 63, 4] :=
  (C6_jog_cc_encoding 130 (by decide)).2.2.2.1

lemma jogOutSum_append (a b : List Output) :
    jogOutSum (a ++ b) = jogOutSum a + jogOutSum b := by
  simp [jogOutSum]

lemma speed_factor_pos {k : SpeedEditorKey} {F : Int}
    (h : JOG_SPEED_FACTOR k = some F) : 0 < F := by
  cases k <;> simp [JOG_SPEED_FACTOR] at h <;> omega

lemma jog_call_spec {s : State} {m : SpeedEditorJogMode} {d F : Int}
    (hF : JOG_SPEED_FACTOR s.jog_mode = some F) :
    ∃ s2 o, jog s m d = some (s2, o) ∧
      s2.jog_mode = s.jog_mode ∧
      jogOutSum o * F + s2.jog_unsent = s.jog_unsent + Int.fdiv d 360 := by
  unfold jog
  dsimp only
  rw [hF]
  dsimp only
  by_cases h0 : Int.fdiv (s.jog_unsent + Int.fdiv d 360) F = 0
  · rw [if_pos h0]
    refine ⟨_, _, rfl, rfl, ?_⟩
    simp [jogOutSum]
  · rw [if_neg h0]
    refine ⟨_, _, rfl, rfl, ?_⟩
    rw [jogOutSum_send]
    ring

lemma jog_call_bound {s : State} {m : SpeedEditorJogMode} {d F : Int}
    (hF : JOG_SPEED_FACTOR s.jog_mode = some F) :
    ∃ s2 o, jog s m d = some (s2, o) ∧ 0 ≤ s2.jog_unsent ∧ s2.jog_unsent < F := by
  have hFpos := speed_factor_pos hF
  have hFnn : (0 : Int) ≤ F := le_of_lt hFpos
  unfold jog
  dsimp only
  rw [hF]
  dsimp only
  set u : Int := s.jog_unsent + Int.fdiv d 360 with hu
  by_cases h0 : Int.fdiv u F = 0
  · rw [if_pos h0]
    refine ⟨_, _, rfl, ?_, ?_⟩
    · have hmod : u % F = u := by
        rw [Int.emod_def, ← Int.fdiv_eq_ediv u hFnn, h0]
        ring
      rw [show ({ s with jog_unsent := u } : State).jog_unsent = u from rfl, ← hmod]
      exact Int.emod_nonneg u (ne_of_gt hFpos)
    · have hmod : u % F = u := by
        rw [Int.emod_def, ← Int.fdiv_eq_ediv u hFnn, h0]
        ring
      rw [show ({ s with jog_unsent := u } : State).jog_unsent = u from rfl, ← hmod]
      exact Int.emod_lt_of_pos u hFpos
  · rw [if_neg h0]
    refine ⟨_, _, rfl, ?_, ?_⟩
    · have hmod : u - Int.fdiv u F * F = u % F := by
        rw [Int.emod_def, ← Int.fdiv_eq_ediv u hFnn]
        ring
      rw [show ({ s with jog_unsent := u - Int.fdiv u F * F } : State).jog_unsent
            = u - Int.fdiv u F * F from rfl, hmod]
      exact Int.emod_nonneg u (ne_of_gt hFpos)
    · have hmod : u - Int.fdiv u F * F = u % F := by
        rw [Int.emod_def, ← Int.fdiv_eq_ediv u hFnn]
        ring
      rw [show ({ s with jog_unsent := u - Int.fdiv u F * F } : State).jog_unsent
            = u - Int.fdiv u F * F from rfl, hmod]
      exact Int.emod_lt_of_pos u hFpos

/-- C4 — remainder bound invariant: after any `jog` ingest call (raw delta a
multiple of 360, active mode with speed factor `F`, prior accumulator within
the bound) the call succeeds and the absolute value of the accumulator is
strictly below the active speed factor. -/
theorem C4_remainder_bound (s : State) (m : SpeedEditorJogMode) (d F : Int)
    (hF : JOG_SPEED_FACTOR s.jog_mode = some F)
    (hdiv : (360 : Int) ∣ d)
    (hprior : |s.jog_unsent| < F) :
    ∃ s2 o, jog s m d = some (s2, o) ∧ |s2.jog_unsent| < F := by
  obtain ⟨s2, o, hjog, hnn, hlt⟩ := jog_call_bound (m := m) (d := d) hF
  exact ⟨s2, o, hjog, by rw [abs_of_nonneg hnn]; exact hlt⟩

/-- Witness for C4: ingesting 7 notches in JOG mode (factor 15) from the
baseline state leaves an accumulator within the bound. -/
theorem C4_remainder_bound_witness :
    ∃ s2 o, jog exState SpeedEditorJogMode.RELATIVE_2 2520 = some (s2, o) ∧
      |s2.jog_unsent| < 15 :=
  C4_remainder_bound exState SpeedEditorJogMode.RELATIVE_2 2520 15
    (by decide) (by norm_num) (by decide)

lemma runJog_spec (k : SpeedEditorKey) (F : Int) (hk : JOG_SPEED_FACTOR k = some F)
    (deltas : List Int) :
    ∀ s : State, s.jog_mode = k →
      ∃ s2 outs, runJog s deltas = some (s2, outs) ∧ s2.jog_mode = k ∧
        jogOutSum outs * F + s2.jog_unsent =
          s.jog_unsent + (deltas.map (fun d => Int.fdiv d 360)).sum := by
  induction deltas with
  | nil =>
    intro s hs
    exact ⟨s, [], rfl, hs, by simp [jogOutSum]⟩
  | cons d ds ih =>
    intro s hs
    obtain ⟨s2, o, hjog, hmode2, hsum2⟩ :=
      jog_call_spec (s := s) (m := SpeedEditorJogMode.RELATIVE_2) (d := d)
        (by rw [hs]; exact hk)
    obtain ⟨s3, o2, hrun, hmode3, hsum3⟩ := ih s2 (hmode2.trans hs)
    refine ⟨s3, o ++ o2, ?_, hmode3, ?_⟩
    · simp only [runJog, hjog, hrun]
    · rw [jogOutSum_append, List.map_cons, List.sum_cons]
      have hexp : (jogOutSum o + jogOutSum o2) * F = jogOutSum o * F + jogOutSum o2 * F := by
        ring
      rw [hexp]
      linarith [hsum2, hsum3]

lemma fdiv_sum_of_dvd (deltas : List Int) (h : ∀ d ∈ deltas, (360 : Int) ∣ d) :
    (deltas.map (fun d => Int.fdiv d 360)).sum = Int.fdiv deltas.sum 360 := by
  induction deltas with
  | nil => rfl
  | cons d ds ih =>
    rw [List.map_cons, List.sum_cons, List.sum_cons,
        ih (fun x hx => h x (List.mem_cons_of_mem d hx))]
    obtain ⟨c, hc⟩ := h d (List.mem_cons_self d ds)
    subst hc
    rw [Int.fdiv_eq_ediv _ (by norm_num), Int.fdiv_eq_ediv _ (by norm_num),
        Int.fdiv_eq_ediv _ (by norm_num)]
    have h1 : (360 * c + ds.sum) / 360 = ds.sum / 360 + c := by
      rw [add_comm (360 * c) ds.sum,
          Int.add_mul_ediv_left ds.sum c (by norm_num : (360 : Int) ≠ 0)]
    have h2 : (360 * c : Int) / 360 = c := Int.mul_ediv_cancel_left c (by norm_num)
    rw [h1, h2]
    ring

/-- C1 — jog accumulator conservation: for any sequence of raw deltas, all
multiples of 360, ingested under a fixed jog mode of speed factor `F` from a
zero accumulator, every call succeeds and the sum of the emitted signed step
values times `F` plus the final accumulator equals the total raw rotation
divided by 360. -/
theorem C1_jog_conservation (k : SpeedEditorKey) (F : Int)
    (hk : JOG_SPEED_FACTOR k = some F)
    (deltas : List Int) (hdiv : ∀ d ∈ deltas, (360 : Int) ∣ d)
    (s : State) (hmode : s.jog_mode = k) (h0 : s.jog_unsent = 0) :
    ∃ s2 outs, runJog s deltas = some (s2, outs) ∧
      jogOutSum outs * F + s2.jog_unsent = Int.fdiv deltas.sum 360 := by
  obtain ⟨s2, outs, hrun, _, hsum⟩ := runJog_spec k F hk deltas s hmode
  rw [h0, fdiv_sum_of_dvd deltas hdiv] at hsum
  exact ⟨s2, outs, hrun, by rw [hsum]; ring⟩

/-- Witness for C1: two deltas (10 and 5 notches) in JOG mode (factor 15)
from the baseline state. -/
theorem C1_jog_conservation_witness :
    ∃ s2 outs, runJog exState [3600, 1800] = some (s2, outs) ∧
      jogOutSum outs * 15 + s2.jog_unsent = Int.fdiv ([3600, 1800] : List Int).sum 360 :=
  C1_jog_conservation SpeedEditorKey.JOG 15 (by decide) [3600, 1800]
    (by intro d hd; simp at hd; rcases hd with rfl | rfl <;> norm_num)
    exState (by decide) (by decide)

/-- C5 counterexample: the mode selected on construction is not the scroll
key's mode — the initial jog mode is not `SCRL`, its speed factor is not 1,
and its jog LED is not the SCRL indicator. -/
theorem C5_counterexample :
    initState.1.jog_mode ≠ SpeedEditorKey.SCRL ∧
    JOG_SPEED_FACTOR initState.1.jog_mode ≠ some 1 ∧
    (JOG initState.1.jog_mode).map Prod.fst ≠ some SpeedEditorJogLed.SCRL := by
  decide

/-- C5 amended: on construction the LED mask is zeroed and pushed first, the
mirrored flags and the jog accumulator start cleared, the held-set starts
empty, and the initially selected jog mode is the JOG key's mode (speed
factor 15, JOG jog LED), programmed after the LED push and before any key
event is processed. -/
theorem C5_init_state :
    initState.1.jog_mode = SpeedEditorKey.JOG ∧
    JOG_SPEED_FACTOR initState.1.jog_mode = some 15 ∧
    initState.1.leds = 0 ∧
    initState.1.keys = ∅ ∧
    initState.1.play_state = false ∧
    initState.1.zoom_mode = false ∧
    initState.1.scrub_mode = false ∧
    initState.1.jog_unsent = 0 ∧
    initState.1.zoom_timer_on = false ∧
    initState.2 = [Output.setLeds 0, Output.setJogLeds SpeedEditorJogLed.JOG,
                   Output.setJogMode SpeedEditorJogMode.RELATIVE_2] := by
  decide

lemma zoom_handle_keys_frame (s : State) :
    (zoom_handle_keys s).1.keys = s.keys ∧
    (zoom_handle_keys s).1.leds = s.leds ∧
    (zoom_handle_keys s).1.play_state = s.play_state ∧
    (zoom_handle_keys s).1.zoom_mode = s.zoom_mode ∧
    (zoom_handle_keys s).1.scrub_mode = s.scrub_mode ∧
    (zoom_handle_keys s).1.jog_unsent = s.jog_unsent ∧
    (zoom_handle_keys s).1.jog_mode = s.jog_mode := by
  unfold zoom_handle_keys set_zoom_timer
  dsimp only
  split
  · split <;> exact ⟨rfl, rfl, rfl, rfl, rfl, rfl, rfl⟩
  · exact ⟨rfl, rfl, rfl, rfl, rfl, rfl, rfl⟩

lemma set_jog_mode_for_key_frame (s : State) (k : SpeedEditorKey) :
    (set_jog_mode_for_key s k).1.keys = s.keys ∧
    (set_jog_mode_for_key s k).1.leds = s.leds ∧
    (set_jog_mode_for_key s k).1.play_state = s.play_state ∧
    (set_jog_mode_for_key s k).1.zoom_mode = s.zoom_mode ∧
    (set_jog_mode_for_key s k).1.scrub_mode = s.scrub_mode ∧
    (set_jog_mode_for_key s k).1.jog_unsent = s.jog_unsent ∧
    (set_jog_mode_for_key s k).1.zoom_timer_on = s.zoom_timer_on := by
  unfold set_jog_mode_for_key
  cases hJ : JOG k with
  | none =>
    exact ⟨rfl, rfl, rfl, rfl, rfl, rfl, rfl⟩
  | some lm =>
    obtain ⟨led, mode⟩ := lm
    dsimp only
    split <;> exact ⟨rfl, rfl, rfl, rfl, rfl, rfl, rfl⟩

lemma key_pressed_frame (s : State) (k : SpeedEditorKey) :
    (key_pressed s k).1.keys = s.keys ∧
    (key_pressed s k).1.play_state = s.play_state ∧
    (key_pressed s k).1.zoom_mode = s.zoom_mode ∧
    (key_pressed s k).1.scrub_mode = s.scrub_mode ∧
    (key_pressed s k).1.jog_unsent = s.jog_unsent := by
  obtain ⟨ha1, _, ha3, ha4, ha5, ha6, _⟩ := set_jog_mode_for_key_frame s k
  unfold key_pressed
  dsimp only
  split
  · obtain ⟨hz1, _, hz3, hz4, hz5, hz6, _⟩ :=
      zoom_handle_keys_frame
        { (set_jog_mode_for_key s k).1 with
            leds := (set_jog_mode_for_key s k).1.leds ^^^ ledBit k }
    exact ⟨hz1.trans ha1, hz3.trans ha3, hz4.trans ha4, hz5.trans ha5, hz6.trans ha6⟩
  · exact ⟨ha1, ha3, ha4, ha5, ha6⟩

/-- C7 — mode-switch frame property: selecting a jog mode for a jog-mode key
changes only the `jog_mode` field (in particular the jog accumulator is
untouched, for every prior accumulator and mirrored-flag state), its outputs
are only jog LED / jog mode register writes and possibly a SCRUB correction
note, and a full press of the key also leaves the accumulator unchanged. -/
theorem C7_mode_switch_frame (s : State) (k : SpeedEditorKey)
    (hk : (JOG k).isSome) :
    (set_jog_mode_for_key s k).1 = { s with jog_mode := k } ∧
    (set_jog_mode_for_key s k).1.jog_unsent = s.jog_unsent ∧
    (∀ o ∈ (set_jog_mode_for_key s k).2,
      (∃ l, o = Output.setJogLeds l) ∨ (∃ m, o = Output.setJogMode m) ∨
      o = Output.midiNote MCU_SCRUB) ∧
    (key_pressed s k).1.jog_unsent = s.jog_unsent := by
  refine ⟨?_, ?_, ?_, (key_pressed_frame s k).2.2.2.2⟩
  · unfold set_jog_mode_for_key
    cases hJ : JOG k with
    | none =>
      rw [hJ] at hk
      simp at hk
    | some lm =>
      obtain ⟨led, mode⟩ := lm
      dsimp only
      split <;> rfl
  · exact (set_jog_mode_for_key_frame s k).2.2.2.2.2.1
  · intro o ho
    cases hJ : JOG k with
    | none =>
      rw [hJ] at hk
      simp at hk
    | some lm =>
      obtain ⟨led, mode⟩ := lm
      unfold set_jog_mode_for_key at ho
      rw [hJ] at ho
      dsimp only at ho
      split at ho
      · simp at ho
        rcases ho with rfl | rfl | rfl
        · exact Or.inl ⟨_, rfl⟩
        · exact Or.inr (Or.inl ⟨_, rfl⟩)
        · exact Or.inr (Or.inr rfl)
      · simp at ho
        rcases ho with rfl | rfl
        · exact Or.inl ⟨_, rfl⟩
        · exact Or.inr (Or.inl ⟨_, rfl⟩)

/-- Witness for C7 at a state with pending accumulator 7 and scrub mode on,
switching to SHTL. -/
theorem C7_mode_switch_frame_witness :
    (set_jog_mode_for_key c7State SpeedEditorKey.SHTL).1 =
      { c7State with jog_mode := SpeedEditorKey.SHTL } ∧
    (key_pressed c7State SpeedEditorKey.SHTL).1.jog_unsent = c7State.jog_unsent :=
  ⟨(C7_mode_switch_frame c7State SpeedEditorKey.SHTL (by decide)).1,
   (C7_mode_switch_frame c7State SpeedEditorKey.SHTL (by decide)).2.2.2⟩

lemma set_jog_mode_for_key_state_some (s : State) (k : SpeedEditorKey)
    (hk : (JOG k).isSome) :
    (set_jog_mode_for_key s k).1 = { s with jog_mode := k } := by
  unfold set_jog_mode_for_key
  cases hJ : JOG k with
  | none =>
    rw [hJ] at hk
    simp at hk
  | some lm =>
    obtain ⟨led, mode⟩ := lm
    dsimp only
    split <;> rfl

lemma set_jog_mode_for_key_untracked (s : State) (k : SpeedEditorKey)
    (hk : JOG k = none) :
    set_jog_mode_for_key s k = (s, []) := by
  unfold set_jog_mode_for_key
  rw [hk]

lemma runHandler_shift (f : State → SpeedEditorKey → State × List Output)
    (ks : List SpeedEditorKey) :
    ∀ (s : State) (o : List Output),
      ks.foldl (fun acc k => let p := f acc.1 k; (p.1, acc.2 ++ p.2)) (s, o) =
        ((runHandler f s ks).1, o ++ (runHandler f s ks).2) := by
  induction ks with
  | nil =>
    intro s o
    simp [runHandler]
  | cons k ks ih =>
    intro s o
    rw [List.foldl_cons]
    dsimp only
    rw [ih (f s k).1 (o ++ (f s k).2)]
    unfold runHandler
    rw [List.foldl_cons]
    dsimp only
    rw [ih (f s k).1 ([] ++ (f s k).2)]
    simp
    exact ⟨rfl, rfl⟩

lemma runHandler_cons (f : State → SpeedEditorKey → State × List Output)
    (s : State) (k : SpeedEditorKey) (ks : List SpeedEditorKey) :
    runHandler f s (k :: ks) =
      ((runHandler f (f s k).1 ks).1, (f s k).2 ++ (runHandler f (f s k).1 ks).2) := by
  unfold runHandler
  rw [List.foldl_cons]
  dsimp only
  rw [runHandler_shift f ks (f s k).1 ([] ++ (f s k).2)]
  simp
  exact ⟨rfl, rfl⟩

lemma runHandler_key_released (ks : List SpeedEditorKey) :
    ∀ s : State, runHandler key_released s ks = (s, []) := by
  induction ks with
  | nil => intro s; rfl
  | cons k ks ih =>
    intro s
    rw [runHandler_cons]
    dsimp only [key_released]
    rw [ih s]
    rfl

lemma runHandler_key_pressed_frame (ks : List SpeedEditorKey) :
    ∀ s : State,
      (runHandler key_pressed s ks).1.keys = s.keys ∧
      (runHandler key_pressed s ks).1.play_state = s.play_state := by
  induction ks with
  | nil => intro s; exact ⟨rfl, rfl⟩
  | cons k ks ih =>
    intro s
    rw [runHandler_cons]
    dsimp only
    obtain ⟨h1, h2⟩ := ih (key_pressed s k).1
    obtain ⟨g1, g2, _, _, _⟩ := key_pressed_frame s k
    exact ⟨h1.trans g1, h2.trans g2⟩

lemma key_keys (s : State) (keysList : List SpeedEditorKey) :
    (key s keysList).1.keys = keysList.toFinset := by
  unfold key
  dsimp only
  rw [runHandler_key_released]
  dsimp only
  exact (runHandler_key_pressed_frame _ _).1

/-- Output-trace shape of `key_pressed`: jog-mode outputs, then the LED mask
push, then the optional STOP/PLAY note (against the entry play state), the
optional RECORD note, and the zoom-scheduler outputs. -/
lemma key_pressed_out (s : State) (k : SpeedEditorKey) :
    (key_pressed s k).2 =
      (set_jog_mode_for_key s k).2 ++
      [Output.setLeds ((set_jog_mode_for_key s k).1.leds ^^^ ledBit k)] ++
      (if k = SpeedEditorKey.STOP_PLAY then
        [Output.midiNote (if s.play_state then MCU_STOP else MCU_PLAY)] else []) ++
      (if k = SpeedEditorKey.FULL_VIEW then [Output.midiNote MCU_REC] else []) ++
      (if k ∈ ZOOM_KEYS then
        (zoom_handle_keys { (set_jog_mode_for_key s k).1 with
            leds := (set_jog_mode_for_key s k).1.leds ^^^ ledBit k }).2 else []) := by
  unfold key_pressed
  dsimp only
  rw [(set_jog_mode_for_key_frame s k).2.2.1]
  by_cases h3 : k ∈ ZOOM_KEYS <;> simp [h3]

lemma key_pressed_state (s : State) (k : SpeedEditorKey) :
    (key_pressed s k).1 =
      if k ∈ ZOOM_KEYS then
        (zoom_handle_keys { (set_jog_mode_for_key s k).1 with
            leds := (set_jog_mode_for_key s k).1.leds ^^^ ledBit k }).1
      else
        { (set_jog_mode_for_key s k).1 with
            leds := (set_jog_mode_for_key s k).1.leds ^^^ ledBit k } := by
  unfold key_pressed
  dsimp only
  split <;> rfl

/-- C2 — key edge-set correctness: the `key` entry point adopts each snapshot
as the stored held-set, the computed edges are exactly `previous \ new` and
`new \ previous` and are disjoint, an unchanged snapshot yields empty edge
sets, and across any processed sequence the stored set equals the last
snapshot. -/
theorem C2_edge_sets :
    (∀ (s : State) (keysList : List SpeedEditorKey),
      (key s keysList).1.keys = keysList.toFinset) ∧
    (∀ (prev : Finset SpeedEditorKey) (keysList : List SpeedEditorKey),
      (keyEdges prev keysList).1 = prev \ keysList.toFinset ∧
      (keyEdges prev keysList).2 = keysList.toFinset \ prev ∧
      Disjoint (keyEdges prev keysList).1 (keyEdges prev keysList).2) ∧
    (∀ (s : State) (keysList : List SpeedEditorKey),
      s.keys = keysList.toFinset → keyEdges s.keys keysList = (∅, ∅)) ∧
    (∀ (s0 : State) (snaps : List (List SpeedEditorKey))
        (keysList : List SpeedEditorKey),
      (runKey s0 (snaps ++ [keysList])).keys = keysList.toFinset) := by
  refine ⟨key_keys, ?_, ?_, ?_⟩
  · intro prev keysList
    exact ⟨rfl, rfl, disjoint_sdiff_sdiff⟩
  · intro s keysList h
    unfold keyEdges
    rw [h]
    simp
  · intro s0 snaps
    induction snaps generalizing s0 with
    | nil =>
      intro keysList
      exact key_keys s0 keysList
    | cons l ls ih =>
      intro keysList
      exact ih (key s0 l).1 keysList

/-- Witness for C2: an unchanged snapshot (SHTL still held) yields empty edge
sets. -/
theorem C2_edge_sets_witness :
    keyEdges c3State.keys [SpeedEditorKey.SHTL] = (∅, ∅) :=
  C2_edge_sets.2.2.1 c3State [SpeedEditorKey.SHTL] (by decide)

/-- C3 counterexample: from a state holding SHTL (a jog-mode key) with active
mode JOG, the empty snapshot releases SHTL, yet the call emits nothing — in
particular no LED commit — and does not reselect the jog mode, refuting
release-driven handling at this input. -/
theorem C3_counterexample : ¬ claimC3releaseActs c3State [] := by
  unfold claimC3releaseActs
  decide

/-- C3 amended: released keys are handled by the no-op `key_released` and
cause no action; the actions the claim attributes to released keys happen for
pressed keys instead — a pressed jog-mode key reselects the jog mode, every
pressed key toggles its LED bit and commits the mask, STOP_PLAY presses emit
the play-state-dependent transport note and FULL_VIEW presses the record
note. -/
theorem C3_press_driven (s : State) (k : SpeedEditorKey) :
    key_released s k = (s, []) ∧
    ((JOG k).isSome → (key_pressed s k).1.jog_mode = k) ∧
    (JOG k = none → (key_pressed s k).1.jog_mode = s.jog_mode) ∧
    (key_pressed s k).1.leds = s.leds ^^^ ledBit k ∧
    Output.setLeds (s.leds ^^^ ledBit k) ∈ (key_pressed s k).2 ∧
    (k = SpeedEditorKey.STOP_PLAY →
      Output.midiNote (if s.play_state then MCU_STOP else MCU_PLAY) ∈ (key_pressed s k).2) ∧
    (k = SpeedEditorKey.FULL_VIEW → Output.midiNote MCU_REC ∈ (key_pressed s k).2) := by
  have hledssjm := (set_jog_mode_for_key_frame s k).2.1
  refine ⟨rfl, ?_, ?_, ?_, ?_, ?_, ?_⟩
  · intro hk
    rw [key_pressed_state, set_jog_mode_for_key_state_some s k hk]
    split
    · exact ((zoom_handle_keys_frame _).2.2.2.2.2.2).trans rfl
    · rfl
  · intro hk
    rw [key_pressed_state, set_jog_mode_for_key_untracked s k hk]
    split
    · exact ((zoom_handle_keys_frame _).2.2.2.2.2.2).trans rfl
    · rfl
  · rw [key_pressed_state]
    split
    · exact ((zoom_handle_keys_frame _).2.1).trans (by rw [hledssjm])
    · dsimp only
      rw [hledssjm]
  · rw [key_pressed_out, hledssjm]
    simp
  · intro hk
    rw [key_pressed_out]
    subst hk
    simp
  · intro hk
    rw [key_pressed_out]
    subst hk
    simp

/-- Witness for C3 amended: concrete presses from the baseline state. -/
theorem C3_press_driven_witness :
    key_released exState SpeedEditorKey.SHTL = (exState, []) ∧
    (key_pressed exState SpeedEditorKey.SHTL).1.jog_mode = SpeedEditorKey.SHTL ∧
    Output.midiNote MCU_PLAY ∈ (key_pressed exState SpeedEditorKey.STOP_PLAY).2 :=
  ⟨(C3_press_driven exState SpeedEditorKey.SHTL).1,
   (C3_press_driven exState SpeedEditorKey.SHTL).2.1 (by decide),
   by
     have h := (C3_press_driven exState SpeedEditorKey.STOP_PLAY).2.2.2.2.2.1 rfl
     simpa [exState] using h⟩

/-- C10 — implicit scrub-correction condition: for a tracked jog-mode key the
SCRUB toggle note is emitted iff the key is SHTL with scrub mode mirrored off,
or a non-SHTL jog key with scrub mode mirrored on; an untracked key leaves the
state unchanged and emits nothing. -/
theorem C10_scrub_correction (s : State) (k : SpeedEditorKey) :
    ((JOG k).isSome →
      (Output.midiNote MCU_SCRUB ∈ (set_jog_mode_for_key s k).2 ↔
        ((k = SpeedEditorKey.SHTL ∧ s.scrub_mode = false) ∨
         (k ≠ SpeedEditorKey.SHTL ∧ s.scrub_mode = true)))) ∧
    (JOG k = none → set_jog_mode_for_key s k = (s, [])) := by
  constructor
  · intro hk
    unfold set_jog_mode_for_key
    cases hJ : JOG k with
    | none =>
      rw [hJ] at hk
      simp at hk
    | some lm =>
      obtain ⟨led, mode⟩ := lm
      dsimp only
      by_cases hsh : k = SpeedEditorKey.SHTL <;>
        cases hsc : s.scrub_mode <;>
        simp [hsh, hsc, MCU_SCRUB]
  · intro hk
    unfold set_jog_mode_for_key
    rw [hk]

/-- Witness for C10: pressing SHTL with scrub mode mirrored off emits the
SCRUB correction note. -/
theorem C10_scrub_correction_witness :
    Output.midiNote MCU_SCRUB ∈ (set_jog_mode_for_key exState SpeedEditorKey.SHTL).2 :=
  ((C10_scrub_correction exState SpeedEditorKey.SHTL).1 (by decide)).mpr
    (Or.inl ⟨rfl, rfl⟩)

lemma transportNotes_append (a b : List Output) :
    transportNotes (a ++ b) = transportNotes a ++ transportNotes b := by
  simp [transportNotes]

lemma transportNotes_set_jog (s : State) (k : SpeedEditorKey) :
    transportNotes (set_jog_mode_for_key s k).2 = [] := by
  unfold set_jog_mode_for_key
  cases hJ : JOG k with
  | none => rfl
  | some lm =>
    obtain ⟨led, mode⟩ := lm
    dsimp only
    split <;> simp [transportNotes, MCU_SCRUB, MCU_STOP, MCU_PLAY]

lemma transportNotes_zoom (s : State) :
    transportNotes (zoom_handle_keys s).2 = [] := by
  unfold zoom_handle_keys set_zoom_timer set_zoom_mode
  dsimp only
  split_ifs <;>
    simp [transportNotes, MCU_ZOOM, MCU_RIGHT, MCU_LEFT, MCU_DOWN, MCU_UP,
          MCU_STOP, MCU_PLAY]

lemma transportNotes_zoom_if (c : Prop) [Decidable c] (st : State) :
    transportNotes (if c then (zoom_handle_keys st).2 else []) = [] := by
  split
  · exact transportNotes_zoom st
  · rfl

lemma transportNotes_key_pressed (s : State) (k : SpeedEditorKey) :
    transportNotes (key_pressed s k).2 =
      if k = SpeedEditorKey.STOP_PLAY then
        [Output.midiNote (if s.play_state then MCU_STOP else MCU_PLAY)] else [] := by
  rw [key_pressed_out, transportNotes_append, transportNotes_append,
      transportNotes_append, transportNotes_append, transportNotes_set_jog,
      transportNotes_zoom_if]
  by_cases h1 : k = SpeedEditorKey.STOP_PLAY
  · subst h1
    cases hps : s.play_state <;>
      simp [transportNotes, hps, MCU_STOP, MCU_PLAY, MCU_REC]
  · by_cases h2 : k = SpeedEditorKey.FULL_VIEW
    · subst h2
      simp [transportNotes, h1, MCU_REC, MCU_STOP, MCU_PLAY]
    · simp [transportNotes, h1, h2]

lemma transportNotes_fold_no_stop (ks : List SpeedEditorKey)
    (hks : SpeedEditorKey.STOP_PLAY ∉ ks) :
    ∀ s : State, transportNotes (runHandler key_pressed s ks).2 = [] := by
  induction ks with
  | nil => intro s; rfl
  | cons k ks ih =>
    intro s
    rw [runHandler_cons]
    dsimp only
    rw [transportNotes_append, transportNotes_key_pressed,
        if_neg (fun h => hks (List.mem_cons.mpr (Or.inl h.symm))),
        ih (fun h => hks (List.mem_cons_of_mem k h))]
    rfl

lemma transportNotes_fold (ks : List SpeedEditorKey)
    (hcount : ks.count SpeedEditorKey.STOP_PLAY ≤ 1) :
    ∀ s : State,
      transportNotes (runHandler key_pressed s ks).2 =
        if SpeedEditorKey.STOP_PLAY ∈ ks then
          [Output.midiNote (if s.play_state then MCU_STOP else MCU_PLAY)] else [] := by
  induction ks with
  | nil => intro s; rfl
  | cons k ks ih =>
    intro s
    rw [runHandler_cons]
    dsimp only
    rw [transportNotes_append, transportNotes_key_pressed]
    by_cases hk : k = SpeedEditorKey.STOP_PLAY
    · subst hk
      have hnot : SpeedEditorKey.STOP_PLAY ∉ ks := by
        intro hmem
        have h1 : 0 < ks.count SpeedEditorKey.STOP_PLAY := List.count_pos_iff_mem.mpr hmem
        rw [List.count_cons_self] at hcount
        omega
      rw [if_pos rfl, transportNotes_fold_no_stop ks hnot,
          if_pos (List.mem_cons_self _ _)]
      rfl
    · have hcount2 : ks.count SpeedEditorKey.STOP_PLAY ≤ 1 := by
        rw [List.count_cons_of_ne (fun h => hk h.symm)] at hcount
        exact hcount
      rw [if_neg hk, ih hcount2 (key_pressed s k).1, (key_pressed_frame s k).2.1]
      by_cases hmem : SpeedEditorKey.STOP_PLAY ∈ ks
      · rw [if_pos hmem, if_pos (List.mem_cons_of_mem k hmem)]
        rfl
      · have hnotc : SpeedEditorKey.STOP_PLAY ∉ k :: ks := by
          intro h
          rcases List.mem_cons.mp h with h1 | h1
          · exact hk h1.symm
          · exact hmem h1
        rw [if_neg hmem, if_neg hnotc]
        rfl

lemma allKeys_complete (k : SpeedEditorKey) : k ∈ allKeys := by
  cases k <;> decide

lemma allKeys_nodup : allKeys.Nodup := by
  decide

lemma mem_setToList (k : SpeedEditorKey) (X : Finset SpeedEditorKey) :
    k ∈ setToList X ↔ k ∈ X := by
  unfold setToList
  simp [List.mem_filter, allKeys_complete k]

lemma setToList_count_le_one (X : Finset SpeedEditorKey) (k : SpeedEditorKey) :
    (setToList X).count k ≤ 1 :=
  List.nodup_iff_count_le_one.mp (List.Nodup.filter _ allKeys_nodup) k

/-- The STOP/PLAY transport notes emitted by one `key` call: exactly one,
decided by the mirrored play state, when STOP_PLAY is newly pressed; none
otherwise. -/
lemma transportNotes_key (s : State) (keysList : List SpeedEditorKey) :
    transportNotes (key s keysList).2 =
      if SpeedEditorKey.STOP_PLAY ∈ (keyEdges s.keys keysList).2 then
        [Output.midiNote (if s.play_state then MCU_STOP else MCU_PLAY)] else [] := by
  unfold key
  dsimp only
  rw [runHandler_key_released]
  dsimp only
  rw [List.nil_append,
      transportNotes_fold (setToList (keyEdges s.keys keysList).2)
        (setToList_count_le_one _ _)]
  simp only [mem_setToList]

/-- C9 — STOP_PLAY toggle against the mirrored play flag: a snapshot that
newly presses STOP_PLAY makes the call emit exactly one transport note, STOP
when the mirrored play state is true and PLAY when it is false; a snapshot
that does not press it emits no transport note; and the synchronizer sets the
mirrored play state to `velocity > 0` on an inbound PLAY note-on. -/
theorem C9_stop_play_toggle :
    (∀ (s : State) (keysList : List SpeedEditorKey),
      SpeedEditorKey.STOP_PLAY ∈ (keyEdges s.keys keysList).2 →
        transportNotes (key s keysList).2 =
          [Output.midiNote (if s.play_state then MCU_STOP else MCU_PLAY)]) ∧
    (∀ (s : State) (keysList : List SpeedEditorKey),
      SpeedEditorKey.STOP_PLAY ∉ (keyEdges s.keys keysList).2 →
        transportNotes (key s keysList).2 = []) ∧
    (∀ (s : State) (v : Nat), 0 < v →
      (receiveMsg s (MidiInMsg.noteOn MCU_PLAY v)).play_state = true) ∧
    (∀ s : State, (receiveMsg s (MidiInMsg.noteOn MCU_PLAY 0)).play_state = false) := by
  refine ⟨?_, ?_, ?_, ?_⟩
  · intro s keysList h
    rw [transportNotes_key, if_pos h]
  · intro s keysList h
    rw [transportNotes_key, if_neg h]
  · intro s v hv
    simp [receiveMsg, MCU_PLAY, MCU_ZOOM, MCU_SCRUB, hv]
  · intro s
    simp [receiveMsg, MCU_PLAY, MCU_ZOOM, MCU_SCRUB]

/-- Witness for C9: pressing STOP_PLAY from the baseline state (play state
false) emits exactly the PLAY note, and an inbound PLAY note-on with velocity
127 flips the mirrored play state to true. -/
theorem C9_stop_play_toggle_witness :
    transportNotes (key exState [SpeedEditorKey.STOP_PLAY]).2 =
      [Output.midiNote MCU_PLAY] ∧
    (receiveMsg exState (MidiInMsg.noteOn MCU_PLAY 127)).play_state = true := by
  constructor
  · have h := C9_stop_play_toggle.1 exState [SpeedEditorKey.STOP_PLAY] (by decide)
    simpa [exState] using h
  · exact C9_stop_play_toggle.2.2.1 exState 127 (by norm_num)

lemma countArm_append (a b : List Output) :
    countArm (a ++ b) = countArm a + countArm b := by
  simp [countArm]

lemma countArm_note_if (c : Prop) [Decidable c] (n : Nat) :
    countArm (if c then [Output.midiNote n] else []) = 0 := by
  split <;> rfl

lemma countArm_setLeds (m : Nat) : countArm [Output.setLeds m] = 0 := by
  rfl

lemma countArm_nil : countArm [] = 0 := by
  rfl

lemma countArm_setLeds_cons (m : Nat) (l : List Output) :
    countArm (Output.setLeds m :: l) = countArm l := by
  simp [countArm, List.count_cons]

lemma countArm_set_zoom_mode_if (c : Prop) [Decidable c] (s : State) :
    countArm (if c then set_zoom_mode s else []) = 0 := by
  split
  · unfold set_zoom_mode
    split <;> rfl
  · rfl

lemma countArm_set_jog (s : State) (k : SpeedEditorKey) :
    countArm (set_jog_mode_for_key s k).2 = 0 := by
  unfold set_jog_mode_for_key
  cases hJ : JOG k with
  | none => rfl
  | some lm =>
    obtain ⟨led, mode⟩ := lm
    dsimp only
    split <;> rfl

lemma armSpec_set_zoom_timer (s : State) : ArmSpec s (set_zoom_timer s) := by
  unfold ArmSpec set_zoom_timer
  split <;> rename_i h <;> simp [countArm, h]

lemma armSpec_zoom_handle_keys (s : State) : ArmSpec s (zoom_handle_keys s) := by
  have ht := armSpec_set_zoom_timer s
  unfold ArmSpec at ht ⊢
  unfold zoom_handle_keys
  dsimp only
  simp only [countArm_append, countArm_set_zoom_mode_if, countArm_note_if]
  split
  · simpa using ht
  · simp [countArm]

lemma armSpec_key_pressed (s : State) (k : SpeedEditorKey) :
    ArmSpec s (key_pressed s k) := by
  have hj := (set_jog_mode_for_key_frame s k).2.2.2.2.2.2
  unfold ArmSpec
  rw [key_pressed_out, key_pressed_state]
  simp only [countArm_append, countArm_set_jog, countArm_note_if, countArm_setLeds]
  split
  · have hz := armSpec_zoom_handle_keys
      { (set_jog_mode_for_key s k).1 with
          leds := (set_jog_mode_for_key s k).1.leds ^^^ ledBit k }
    unfold ArmSpec at hz
    dsimp only at hz
    rw [← hj]
    simpa using hz
  · dsimp only
    rw [hj]
    simp [countArm]

lemma armSpec_runHandler_key_pressed (ks : List SpeedEditorKey) :
    ∀ s : State, ArmSpec s (runHandler key_pressed s ks) := by
  induction ks with
  | nil =>
    intro s
    unfold ArmSpec
    simp [runHandler, countArm]
  | cons k ks ih =>
    intro s
    have h1 := armSpec_key_pressed s k
    have h2 := ih (key_pressed s k).1
    unfold ArmSpec at h1 h2 ⊢
    rw [runHandler_cons]
    dsimp only
    rw [countArm_append]
    omega

lemma armSpec_key (s : State) (keysList : List SpeedEditorKey) :
    ArmSpec s (key s keysList) := by
  have h := armSpec_runHandler_key_pressed
    (setToList (keyEdges s.keys keysList).2) { s with keys := keysList.toFinset }
  unfold ArmSpec at h ⊢
  dsimp only at h
  unfold key
  dsimp only
  rw [runHandler_key_released]
  dsimp only
  rw [List.nil_append]
  exact h

lemma zoom_repeat_arm (s : State) :
    countArm (zoom_repeat s).2 =
      (if (zoom_repeat s).1.zoom_timer_on then 1 else 0) := by
  have h := armSpec_zoom_handle_keys { s with zoom_timer_on := false }
  unfold ArmSpec at h
  unfold zoom_repeat
  dsimp only at h ⊢
  simpa using h

lemma zoomStep_inv {sys sys2 : ZoomSys} {e : ZoomEvent}
    (hinv : ZoomInv sys) (hstep : zoomStep sys e = some sys2) : ZoomInv sys2 := by
  cases e with
  | snapshot l =>
    unfold zoomStep at hstep
    dsimp only at hstep
    injection hstep with h
    subst h
    have h := armSpec_key sys.st l
    unfold ArmSpec at h
    unfold ZoomInv at hinv ⊢
    dsimp only
    omega
  | fire =>
    have hstep2 : (if sys.pending = 0 then (none : Option ZoomSys)
        else some ⟨(zoom_repeat sys.st).1,
                   sys.pending - 1 + countArm (zoom_repeat sys.st).2⟩) = some sys2 := hstep
    split at hstep2
    · exact absurd hstep2 (by simp)
    · rename_i hne
      injection hstep2 with h
      subst h
      have h := zoom_repeat_arm sys.st
      unfold ZoomInv at hinv ⊢
      dsimp only
      rw [h]
      cases hb : sys.st.zoom_timer_on <;> rw [hb] at hinv <;> simp at hinv <;> omega

lemma zoomInv_pending_le_one {sys : ZoomSys} (hinv : ZoomInv sys) :
    sys.pending ≤ 1 := by
  unfold ZoomInv at hinv
  cases hb : sys.st.zoom_timer_on <;> rw [hb] at hinv <;> simp at hinv <;> omega

lemma zoom_handle_keys_quiet (s : State) (h : ∀ k ∈ ZOOM_KEYS, k ∉ s.keys) :
    zoom_handle_keys s = (s, []) := by
  have hIN : SpeedEditorKey.IN ∉ s.keys := h _ (by decide)
  have hOUT : SpeedEditorKey.OUT ∉ s.keys := h _ (by decide)
  have hTI : SpeedEditorKey.TRIM_IN ∉ s.keys := h _ (by decide)
  have hTO : SpeedEditorKey.TRIM_OUT ∉ s.keys := h _ (by decide)
  have hany : ZOOM_KEYS.any (fun k => decide (k ∈ s.keys)) = false := by
    simp [ZOOM_KEYS, hIN, hOUT, hTI, hTO]
  unfold zoom_handle_keys
  dsimp only
  rw [hany]
  simp [hIN, hOUT, hTI, hTO]

lemma key_pressed_quiet (s : State) (k : SpeedEditorKey) (hk : k ∉ ZOOM_KEYS) :
    countArm (key_pressed s k).2 = 0 ∧
    (key_pressed s k).1.zoom_timer_on = s.zoom_timer_on := by
  constructor
  · rw [key_pressed_out]
    simp [countArm_append, countArm_set_jog, countArm_note_if, countArm_setLeds,
          countArm_nil, countArm_setLeds_cons, hk]
  · rw [key_pressed_state, if_neg hk]
    exact (set_jog_mode_for_key_frame s k).2.2.2.2.2.2

lemma runHandler_pressed_quiet (ks : List SpeedEditorKey)
    (hks : ∀ k ∈ ks, k ∉ ZOOM_KEYS) :
    ∀ s : State,
      countArm (runHandler key_pressed s ks).2 = 0 ∧
      (runHandler key_pressed s ks).1.zoom_timer_on = s.zoom_timer_on := by
  induction ks with
  | nil => intro s; exact ⟨rfl, rfl⟩
  | cons k ks ih =>
    intro s
    obtain ⟨h1, h2⟩ := key_pressed_quiet s k (hks k (List.mem_cons_self k ks))
    obtain ⟨h3, h4⟩ := ih (fun x hx => hks x (List.mem_cons_of_mem k hx)) (key_pressed s k).1
    rw [runHandler_cons]
    dsimp only
    rw [countArm_append, h1, h3]
    exact ⟨rfl, h4.trans h2⟩

lemma key_quiet (s : State) (l : List SpeedEditorKey)
    (hnz : ∀ k ∈ ZOOM_KEYS, k ∉ l) :
    countArm (key s l).2 = 0 ∧ (key s l).1.zoom_timer_on = s.zoom_timer_on := by
  have hks : ∀ k ∈ setToList (keyEdges s.keys l).2, k ∉ ZOOM_KEYS := by
    intro k hk hzk
    have h1 : k ∈ (keyEdges s.keys l).2 := (mem_setToList k _).mp hk
    unfold keyEdges at h1
    have h2 : k ∈ l.toFinset := (Finset.mem_sdiff.mp h1).1
    exact hnz k hzk (List.mem_toFinset.mp h2)
  obtain ⟨h1, h2⟩ := runHandler_pressed_quiet _ hks { s with keys := l.toFinset }
  unfold key
  dsimp only
  rw [runHandler_key_released]
  dsimp only
  rw [List.nil_append]
  exact ⟨h1, h2⟩

lemma zoomRun_quiet (events : List ZoomEvent)
    (hq : ∀ l, ZoomEvent.snapshot l ∈ events → ∀ k ∈ ZOOM_KEYS, k ∉ l) :
    ∀ sys : ZoomSys, sys.pending = 0 → sys.st.zoom_timer_on = false →
      (ZoomEvent.fire ∈ events → zoomRun sys events = none) ∧
      (∀ sys3, zoomRun sys events = some sys3 →
        sys3.pending = 0 ∧ sys3.st.zoom_timer_on = false) := by
  induction events with
  | nil =>
    intro sys h0 hon
    refine ⟨fun h => absurd h (List.not_mem_nil _), ?_⟩
    intro sys3 h
    unfold zoomRun at h
    injection h with h
    subst h
    exact ⟨h0, hon⟩
  | cons e es ih =>
    intro sys h0 hon
    cases e with
    | fire =>
      have hstep : zoomStep sys ZoomEvent.fire = none := by
        unfold zoomStep
        rw [if_pos h0]
      constructor
      · intro _
        unfold zoomRun
        rw [hstep]
      · intro sys3 h
        unfold zoomRun at h
        rw [hstep] at h
        exact absurd h (by simp)
    | snapshot l =>
      have hnz : ∀ k ∈ ZOOM_KEYS, k ∉ l :=
        hq l (List.mem_cons_self _ _)
      obtain ⟨hc, ho⟩ := key_quiet sys.st l hnz
      have hstep : zoomStep sys (ZoomEvent.snapshot l) =
          some ⟨(key sys.st l).1, sys.pending + countArm (key sys.st l).2⟩ := rfl
      have hq2 : ∀ l2, ZoomEvent.snapshot l2 ∈ es → ∀ k ∈ ZOOM_KEYS, k ∉ l2 :=
        fun l2 h2 => hq l2 (List.mem_cons_of_mem _ h2)
      have h02 : (⟨(key sys.st l).1, sys.pending + countArm (key sys.st l).2⟩ :
          ZoomSys).pending = 0 := by
        dsimp only
        omega
      have hon2 : (⟨(key sys.st l).1, sys.pending + countArm (key sys.st l).2⟩ :
          ZoomSys).st.zoom_timer_on = false := by
        dsimp only
        rw [ho]
        exact hon
      obtain ⟨ih1, ih2⟩ := ih hq2 _ h02 hon2
      constructor
      · intro hf
        unfold zoomRun
        rw [hstep]
        have hf2 : ZoomEvent.fire ∈ es := by
          rcases List.mem_cons.mp hf with h | h
          · exact absurd h (by simp)
          · exact h
        exact ih1 hf2
      · intro sys3 h
        unfold zoomRun at h
        rw [hstep] at h
        exact ih2 sys3 h

/-- C8 — zoom single-arm and self-termination: over the step relation of the
zoom-scheduler model, the outstanding-timer count always matches the
`zoom_timer_on` guard (so at most one repeat timer is ever outstanding), and
a repeat that fires while no zoom key is held leaves no timer armed; from
then on, as long as no snapshot presses a zoom key, no further timer exists
(a further expiry event is not even enabled) and the flag stays clear. -/
theorem C8_zoom_single_arm :
    (∀ (sys sys2 : ZoomSys) (e : ZoomEvent),
      ZoomInv sys → zoomStep sys e = some sys2 →
        ZoomInv sys2 ∧ sys2.pending ≤ 1) ∧
    (∀ sys sys2 : ZoomSys,
      ZoomInv sys → (∀ k ∈ ZOOM_KEYS, k ∉ sys.st.keys) →
      zoomStep sys ZoomEvent.fire = some sys2 →
        sys2.pending = 0 ∧ sys2.st.zoom_timer_on = false ∧
        (∀ events : List ZoomEvent,
          (∀ l, ZoomEvent.snapshot l ∈ events → ∀ k ∈ ZOOM_KEYS, k ∉ l) →
          (ZoomEvent.fire ∈ events → zoomRun sys2 events = none) ∧
          (∀ sys3, zoomRun sys2 events = some sys3 →
            sys3.pending = 0 ∧ sys3.st.zoom_timer_on = false))) := by
  constructor
  · intro sys sys2 e hinv hstep
    have h := zoomStep_inv hinv hstep
    exact ⟨h, zoomInv_pending_le_one h⟩
  · intro sys sys2 hinv hquiet hstep
    have hstep2 : (if sys.pending = 0 then (none : Option ZoomSys)
        else some ⟨(zoom_repeat sys.st).1,
                   sys.pending - 1 + countArm (zoom_repeat sys.st).2⟩) = some sys2 := hstep
    split at hstep2
    · exact absurd hstep2 (by simp)
    · rename_i hne
      injection hstep2 with h
      subst h
      have hzr : zoom_repeat sys.st = ({ sys.st with zoom_timer_on := false }, []) := by
        unfold zoom_repeat
        exact zoom_handle_keys_quiet _ hquiet
      have hp : sys.pending = 1 := by
        unfold ZoomInv at hinv
        cases hb : sys.st.zoom_timer_on <;> rw [hb] at hinv <;> simp at hinv <;> omega
      rw [hzr]
      dsimp only
      refine ⟨by simp [countArm, hp], rfl, ?_⟩
      intro events hq
      exact zoomRun_quiet events hq _ (by simp [countArm, hp]) rfl

/-- Witness for C8: from the baseline system (no timer outstanding), a
snapshot pressing IN preserves the invariant and keeps at most one timer
outstanding. -/
theorem C8_zoom_single_arm_witness :
    ∃ sys2, zoomStep ⟨exState, 0⟩ (ZoomEvent.snapshot [SpeedEditorKey.IN]) = some sys2 ∧
      ZoomInv sys2 ∧ sys2.pending ≤ 1 :=
  ⟨_, rfl, C8_zoom_single_arm.1 ⟨exState, 0⟩ _ (ZoomEvent.snapshot [SpeedEditorKey.IN])
    (by unfold ZoomInv; decide) rfl⟩

end MackieHandler
